import Mathlib

/-!
Verification of the interactive-globe interaction core (EventEmitter, orbit
controls, globe picking/encoding, render loop) against its specification.
Each definition below is a shallow embedding of the corresponding JavaScript
source; times and coordinates are modelled as exact rationals, JS object
identity (where the source compares with strict inequality) is modelled with
explicit allocation counters, and deferred timers are modelled with unique
timer ids.
-/

namespace GithubGlobe

/-! ### EventEmitter (src/utils/EventEmitter.js)

A listener record `{ callback, once, priority }`; the callback is represented
by a numeric tag, which in the registration model doubles as the registration
index (the position of its `on` call). -/

structure Listener where
  tag : Nat
  once : Bool
  priority : Int
  deriving Repr, DecidableEq

/-- The call `Array.prototype.sort((a, b) => b.priority - a.priority)` is a stable sort
by descending priority.  Inserting an element after every element of greater
or equal priority is the effect of that stable sort on a single new element. -/
def insertListener (l : Listener) : List Listener → List Listener
  | [] => [l]
  | x :: xs => if l.priority ≤ x.priority then x :: insertListener l xs else l :: x :: xs

/-- Stable sort by descending priority: fold the registration list left to
right, each element inserted after all already-placed elements of greater or
equal priority (equal priorities keep their relative order). -/
def sortListeners (ls : List Listener) : List Listener :=
  ls.foldl (fun acc l => insertListener l acc) []

/-- Model of `EventEmitter.on`: push the new listener, then sort the listener array by
descending priority (stable). -/
def onListener (st : List Listener) (l : Listener) : List Listener :=
  sortListeners (st ++ [l])

/-- Build the listener array of one event after a sequence of `on(event, cb,
{once, priority})` calls; the `i`-th call is given tag `i`. -/
def registerFrom (i : Nat) (st : List Listener) : List (Bool × Int) → List Listener
  | [] => st
  | (o, p) :: rest => registerFrom (i + 1) (onListener st ⟨i, o, p⟩) rest

def emitterAfter (regs : List (Bool × Int)) : List Listener :=
  registerFrom 0 [] regs

/-- The method `EventEmitter.emit` copies the listener array and iterates
`for (let i = listeners.length - 1; i >= 0; i--)`, i.e. it invokes the stored
(descending-sorted) listeners from the last entry to the first.  The value is
the invocation order. -/
def emitOrder (st : List Listener) : List Listener :=
  st.reverse

/-- After `emit`, every `once` listener has been spliced out (the backwards
iteration makes index `i` of the copy valid in the live array). -/
def emitRemaining (st : List Listener) : List Listener :=
  st.filter (fun l => !l.once)

/-- Order the stored listener array maintains: strictly greater priority
first; equal priority in registration (tag) order. -/
def storedRel (a b : Listener) : Prop :=
  b.priority < a.priority ∨ (a.priority = b.priority ∧ a.tag < b.tag)

/-! ### Controls: gesture classification (src/core/Controls.js)

`handleMouseDown` records the press time and position and clears the drag
flag; `handleMouseMove` computes the delta from the previous mouse position
and sets the drag flag when a single move of length greater than 5 px occurs;
`handleMouseUp` invokes `handleClick` iff the flag is clear and the elapsed
time is strictly below the 200 ms click threshold.  The 2D length comparison
`delta.length() > 5` is modelled exactly on squared lengths. -/

structure GestureState where
  isDragging : Bool
  mouseDownTime : ℚ
  lastX : ℚ
  lastY : ℚ
  deriving Repr, DecidableEq

def handleMouseDown (t x y : ℚ) : GestureState :=
  ⟨false, t, x, y⟩

def handleMouseMove (st : GestureState) (x y : ℚ) : GestureState :=
  let dx := x - st.lastX
  let dy := y - st.lastY
  if 25 < dx * dx + dy * dy then ⟨true, st.mouseDownTime, x, y⟩
  else ⟨st.isDragging, st.mouseDownTime, x, y⟩

def runMoves (st : GestureState) (moves : List (ℚ × ℚ)) : GestureState :=
  moves.foldl (fun s m => handleMouseMove s m.1 m.2) st

/-- Model of `handleMouseUp`: the cycle counts as a click (and `handleClick` fires) iff
no move exceeded the pixel threshold and the duration is under 200 ms. -/
def mouseUpIsClick (st : GestureState) (t : ℚ) : Bool :=
  !st.isDragging && decide (t - st.mouseDownTime < 200)

/-- A full press→moves→release cycle. -/
def classifyCycle (t0 x0 y0 : ℚ) (moves : List (ℚ × ℚ)) (t1 : ℚ) : Bool :=
  mouseUpIsClick (runMoves (handleMouseDown t0 x0 y0) moves) t1

/-- The per-event pointer displacements of a move sequence starting at
`(x, y)`. -/
def moveSteps (x y : ℚ) : List (ℚ × ℚ) → List (ℚ × ℚ)
  | [] => []
  | (a, b) :: ms => (a - x, b - y) :: moveSteps a b ms

/-- Total distance travelled by a purely horizontal pointer path (the cumulative
pointer movement of the claim, for such a path). -/
def cumulativeAbsX (x : ℚ) : List ℚ → ℚ
  | [] => 0
  | a :: ms => |a - x| + cumulativeAbsX a ms

/-! ### Controls: auto-rotate idle timer (src/core/Controls.js)

`scheduleAutoRotate` first calls `stopAutoRotate` (which clears any pending
timeout) and then sets a fresh 3-second timeout; the timeout callback enables
auto-rotation only when `!state.isInteracting`.  The OrbitControls `start`
listener sets `isInteracting` and calls `stopAutoRotate`.  Timeouts are
modelled with unique ids: a `fire id` action has an effect only when `id` is
the still-pending timeout (JS never runs a cleared timeout, and runs a live
one at most once). -/

structure AutoRotateState where
  nextId : Nat
  pending : Option Nat
  isInteracting : Bool
  autoRotate : Bool
  deriving Repr, DecidableEq

def stopAutoRotate (st : AutoRotateState) : AutoRotateState :=
  { st with pending := none, autoRotate := false }

inductive ARAction where
  | schedule
  | interactStart
  | fire (id : Nat)
  deriving Repr, DecidableEq

/-- One action; the second component lists the ids of the timeouts that fired
and emitted `controls:auto-rotate-started` in this step. -/
def arStep (st : AutoRotateState) : ARAction → AutoRotateState × List Nat
  | .schedule =>
      let st1 := stopAutoRotate st
      ({ st1 with pending := some st1.nextId, nextId := st1.nextId + 1 }, [])
  | .interactStart =>
      (stopAutoRotate { st with isInteracting := true }, [])
  | .fire id =>
      if st.pending = some id then
        if st.isInteracting then ({ st with pending := none }, [])
        else ({ st with pending := none, autoRotate := true }, [id])
      else (st, [])

def arRun : AutoRotateState → List ARAction → AutoRotateState × List Nat
  | st, [] => (st, [])
  | st, a :: tr =>
      ((arRun (arStep st a).1 tr).1, (arStep st a).2 ++ (arRun (arStep st a).1 tr).2)

/-! ### DataManager.getEngagementByCoords (src/data/DataManager.js)

A hard-coded ordered table of per-country axis-aligned bounding boxes; the
loop returns at the first containing box: the engagement record of that country
spread into a fresh object, or `null` when that country has no record.  The
declared `tolerance` parameter (default 5) is never read in the body.
Engagement data is a map from ISO code to an optional record of type `α`. -/

structure CountryBox where
  latMin : ℚ
  latMax : ℚ
  lngMin : ℚ
  lngMax : ℚ
  deriving Repr, DecidableEq

/-- The `countryBounds` table, in the insertion order of the source. -/
def countryBounds : List (String × CountryBox) :=
  [("IND", ⟨6, 37, 68, 97⟩),
   ("SGP", ⟨11/10, 3/2, 518/5, 104⟩),
   ("ARE", ⟨22, 53/2, 51, 57⟩),
   ("MYS", ⟨4/5, 15/2, 99, 120⟩),
   ("THA", ⟨11/2, 21, 97, 106⟩),
   ("IDN", ⟨-11, 6, 95, 141⟩),
   ("PHL", ⟨4, 21, 116, 127⟩),
   ("HKG", ⟨221/10, 113/5, 569/5, 229/2⟩)]

def boxContains (b : CountryBox) (lat lng : ℚ) : Bool :=
  decide (b.latMin ≤ lat) && decide (lat ≤ b.latMax) &&
    decide (b.lngMin ≤ lng) && decide (lng ≤ b.lngMax)

/-- The first entry of `countryBounds` whose box contains the coordinate —
the box at which the `for … of Object.entries` loop of the source returns. -/
def firstMatchingBox (lat lng : ℚ) : Option (String × CountryBox) :=
  countryBounds.find? (fun cb => boxContains cb.2 lat lng)

/-- Model of `getEngagementByCoords(lat, lng, tolerance = 5)`.  Returns
`{ countryCode, ...record }` for the country of the first matching box when it
has an engagement record, `null` otherwise (also when the country of the first
matching box has no record — later boxes are not consulted). -/
def getEngagementByCoords {α : Type} (eng : String → Option α)
    (lat lng _tolerance : ℚ) : Option (String × α) :=
  match firstMatchingBox lat lng with
  | some (c, _) =>
      match eng c with
      | some r => some (c, r)
      | none => none
  | none => none

/-! ### Globe hover resolution (src/core/Globe.js)

`scene:mousemove` → `handleGlobeHover` → `getEngagementByCoords`.  The guard
`engagementData !== this.hoveredCountry` is a JS reference comparison, and
`getEngagementByCoords` allocates a fresh `{ countryCode, ...record }` object
on every call; object identity is modelled by pairing each allocated result
with a fresh allocation counter value.  A frame input of `none` is a pointer
position whose ray misses the globe. -/

structure HoverState where
  nextId : Nat
  hovered : Option (Nat × String)
  hoveredEvents : Nat
  hoverEndEvents : Nat
  deriving Repr, DecidableEq

def initialHoverState : HoverState := ⟨0, none, 0, 0⟩

def hoverFrame {α : Type} (eng : String → Option α) (st : HoverState)
    (input : Option (ℚ × ℚ)) : HoverState :=
  match input with
  | none =>
      match st.hovered with
      | some _ => { st with hovered := none, hoverEndEvents := st.hoverEndEvents + 1 }
      | none => st
  | some (lat, lng) =>
      match getEngagementByCoords eng lat lng 5 with
      | some (c, _) =>
          let obj : Nat × String := (st.nextId, c)
          if some obj ≠ st.hovered then
            { st with nextId := st.nextId + 1, hovered := some obj, hoveredEvents := st.hoveredEvents + 1 }
          else { st with nextId := st.nextId + 1 }
      | none =>
          match st.hovered with
          | some _ => { st with hovered := none, hoverEndEvents := st.hoverEndEvents + 1 }
          | none => st

def hoverFrames {α : Type} (eng : String → Option α) (st : HoverState)
    (inputs : List (Option (ℚ × ℚ))) : HoverState :=
  inputs.foldl (hoverFrame eng) st

/-- Engagement data in which only Singapore has a record. -/
def engSGP : String → Option Unit := fun c => if c = "SGP" then some () else none

/-- Engagement data with no records at all. -/
def engNone : String → Option Unit := fun _ => none

/-! ### Globe click resolution (src/core/Globe.js)

The wired click path is `scene:click` → `handleGlobeClick`;
`handleCountryClick` is the polygon-object entry point (no caller wires it to
pointer clicks in the sources). -/

inductive GlobeEvent where
  | countryClicked (iso : String)
  | globeClicked
  | countryNoData (iso : String)
  | countryFocused (iso : String)
  deriving Repr, DecidableEq

/-- Predefined country centers (lat, lng) of `focusCountry`. -/
def countryCenters : List (String × (ℚ × ℚ)) :=
  [("IND", (205937/10000, 789629/10000)),
   ("SGP", (13521/10000, 1038198/10000)),
   ("ARE", (234241/10000, 538478/10000)),
   ("MYS", (42105/10000, 1019758/10000)),
   ("THA", (1587/100, 1009925/10000)),
   ("IDN", (-7893/10000, 1139213/10000)),
   ("PHL", (128797/10000, 121774/1000)),
   ("HKG", (223193/10000, 1141694/10000))]

/-- Events emitted by `focusCountry`: `country:focused` for a known code, a
logged diagnostic (no event) otherwise. -/
def focusCountryEvents (iso : String) : List GlobeEvent :=
  if (countryCenters.find? (fun p => p.1 = iso)).isSome then
    [GlobeEvent.countryFocused iso]
  else []

/-- Model of `handleGlobeClick`: coordinates that resolve through
`getEngagementByCoords` to a record emit `country:clicked`; otherwise
`globe:clicked` is emitted.  A `none` coordinate is a failed
`pointToLatLng` conversion (suppressed, no event). -/
def handleGlobeClick {α : Type} (eng : String → Option α)
    (coords : Option (ℚ × ℚ)) : List GlobeEvent :=
  match coords with
  | none => []
  | some (lat, lng) =>
      match getEngagementByCoords eng lat lng 5 with
      | some (c, _) => [GlobeEvent.countryClicked c]
      | none => [GlobeEvent.globeClicked]

/-- Model of `handleCountryClick`: with an engagement record for the ISO code, emits
`country:clicked` and focuses the country; without one, emits
`country:no-data`. -/
def handleCountryClick {α : Type} (eng : String → Option α)
    (iso : String) : List GlobeEvent :=
  match eng iso with
  | some _ => GlobeEvent.countryClicked iso :: focusCountryEvents iso
  | none => [GlobeEvent.countryNoData iso]

/-! ### Globe.loadProjectArcs (src/core/Globe.js)

Arc coordinates are JS numbers: possibly `NaN` or `±Infinity` (`parseFloat`
of a numeric field is the number itself).  The filter keeps an arc when all
four parsed coordinates pass `!isNaN` and the range comparisons, which follow
IEEE semantics (`jsLe`); each arc filtered out produces a `console.warn`
diagnostic, and the function never throws. -/

inductive JsNum where
  | nan
  | inf
  | negInf
  | fin (q : ℚ)
  deriving Repr, DecidableEq

def jsIsNaN : JsNum → Bool
  | .nan => true
  | _ => false

/-- IEEE `<=` on non-NaN-poisoned comparisons: any comparison with NaN is
false; `-Infinity` is below and `Infinity` above every number. -/
def jsLe : JsNum → JsNum → Bool
  | .nan, _ => false
  | _, .nan => false
  | .negInf, _ => true
  | _, .negInf => false
  | _, .inf => true
  | .inf, _ => false
  | .fin x, .fin y => decide (x ≤ y)

structure Arc where
  startLat : JsNum
  startLng : JsNum
  endLat : JsNum
  endLng : JsNum
  status : Bool
  arcAlt : ℚ
  order : ℚ
  deriving Repr, DecidableEq

/-- The validation predicate of the `legacyProjects.filter` callback, with the
comparison order of the source (NaN checks, then latitudes, then longitudes). -/
def isValidArc (a : Arc) : Bool :=
  !jsIsNaN a.startLat && !jsIsNaN a.startLng && !jsIsNaN a.endLat && !jsIsNaN a.endLng &&
    jsLe (.fin (-90)) a.startLat && jsLe a.startLat (.fin 90) &&
    jsLe (.fin (-90)) a.endLat && jsLe a.endLat (.fin 90) &&
    jsLe (.fin (-180)) a.startLng && jsLe a.startLng (.fin 180) &&
    jsLe (.fin (-180)) a.endLng && jsLe a.endLng (.fin 180)

/-- Model of `loadProjectArcs`: the renderable arc set handed to `arcsData`, together
with the number of `console.warn` diagnostics (one per dropped arc). -/
def loadProjectArcs (projects : List Arc) : List Arc × Nat :=
  (projects.filter isValidArc, (projects.filter (fun a => !isValidArc a)).length)

/-- Model of `arcColor`: status keyed to the two fixed colors (exact legacy logic). -/
def arcColor (e : Arc) : String :=
  if e.status then "#00d4ff" else "#ff6b6b"

/-- Model of `arcStroke`: 0.5 for active arcs, 0.3 otherwise. -/
def arcStroke (e : Arc) : ℚ :=
  if e.status then 1/2 else 3/10

/-- Model of `arcDashInitialGap`: `e.order * 1`. -/
def arcDashInitialGap (e : Arc) : ℚ :=
  e.order * 1

/-- The condition the claim places on one coordinate: a finite number within the given
closed range. -/
def finiteInRange (x : JsNum) (lo hi : ℚ) : Prop :=
  ∃ q : ℚ, x = JsNum.fin q ∧ lo ≤ q ∧ q ≤ hi

/-! ### Globe.getEnhancedCountryColor (src/core/Globe.js)

`interpolateColor` is THREE.Color.lerp, channelwise
`this.r += (color.r - this.r) * alpha`.  The neutral color
`rgba(255, 255, 255, 0.5)` parses to white (THREE.Color ignores the alpha
component).  The gold (HQ accent) and blue highlight colors come from
`Constants.js`, which is not among the sources; the properties below hold
for arbitrary values of both. -/

structure ColorRGB where
  r : ℚ
  g : ℚ
  b : ℚ
  deriving Repr, DecidableEq

def lerpColor (c1 c2 : ColorRGB) (alpha : ℚ) : ColorRGB :=
  ⟨c1.r + (c2.r - c1.r) * alpha, c1.g + (c2.g - c1.g) * alpha, c1.b + (c2.b - c1.b) * alpha⟩

def interpolateColor (c1 c2 : ColorRGB) (factor : ℚ) : ColorRGB :=
  lerpColor c1 c2 factor

/-- The value of `this.colors.defaultCountry` (an rgba white, alpha 0.5) as a THREE
color: white. -/
def defaultCountryColor : ColorRGB := ⟨1, 1, 1⟩

/-- The intensity `Math.min(countryData.projectCount / 10, 1)` — weight capped at 10
projects. -/
def colorIntensity (projectCount : ℚ) : ℚ :=
  min (projectCount / 10) 1

/-- Model of `getEnhancedCountryColor`: India always gets the gold accent; a country
with visualization data gets the white→blue interpolation at the capped
intensity; all other countries the neutral color.  `countryDataMap` gives
the `projectCount` of each country. -/
def getEnhancedCountryColor (gold blue : ColorRGB)
    (countryDataMap : String → Option ℚ) (iso : String) : ColorRGB :=
  if iso = "IND" then gold
  else
    match countryDataMap iso with
    | some projectCount =>
        interpolateColor defaultCountryColor blue (colorIntensity projectCount)
    | none => defaultCountryColor

/-! ### Scene render loop (src/core/Scene.js) with THREE.Clock

Times are in milliseconds (`performance.now()`); THREE.Clock reports seconds,
dividing by 1000.  `Clock.start()` resets `startTime`, `oldTime` and —
crucially — `elapsedTime = 0`.  `Scene.animate` re-registers itself and
returns before reading the clock while paused; `Scene.resume` clears the
pause flag and calls `clock.start()`. -/

structure JClock where
  autoStart : Bool
  startTime : ℚ
  oldTime : ℚ
  elapsedTime : ℚ
  running : Bool
  deriving Repr, DecidableEq

def newClock : JClock := ⟨true, 0, 0, 0, false⟩

def clockStart (now : ℚ) (c : JClock) : JClock :=
  { c with startTime := now, oldTime := now, elapsedTime := 0, running := true }

/-- Model of `Clock.getDelta()` at wall time `now` (ms): returns the delta in seconds
and the updated clock. -/
def getDelta (now : ℚ) (c : JClock) : ℚ × JClock :=
  if c.autoStart && !c.running then (0, clockStart now c)
  else if c.running then
    ((now - c.oldTime) / 1000,
      { c with oldTime := now, elapsedTime := c.elapsedTime + (now - c.oldTime) / 1000 })
  else (0, c)

/-- The method `Clock.getElapsedTime()` calls `getDelta` internally and returns the
accumulated elapsed seconds. -/
def getElapsedTime (now : ℚ) (c : JClock) : ℚ × JClock :=
  ((getDelta now c).2.elapsedTime, (getDelta now c).2)

structure SceneState where
  isAnimating : Bool
  isPaused : Bool
  clock : JClock
  frames : List (ℚ × ℚ)
  deriving Repr, DecidableEq

def initialSceneState : SceneState := ⟨false, false, newClock, []⟩

/-- One `animate` tick at wall time `now`: while paused (or stopped), no
`scene:animate` event and no clock read; otherwise emit
`{deltaTime, elapsedTime}`. -/
def sceneAnimate (now : ℚ) (st : SceneState) : SceneState :=
  if !st.isAnimating then st
  else if st.isPaused then st
  else
    let d := (getDelta now st.clock).1
    let c1 := (getDelta now st.clock).2
    let e := (getElapsedTime now c1).1
    let c2 := (getElapsedTime now c1).2
    { st with clock := c2, frames := st.frames ++ [(d, e)] }

def scenePause (st : SceneState) : SceneState :=
  { st with isPaused := true }

def sceneResume (now : ℚ) (st : SceneState) : SceneState :=
  { st with isPaused := false, clock := clockStart now st.clock }

def sceneStart (now : ℚ) (st : SceneState) : SceneState :=
  if st.isAnimating then st
  else sceneAnimate now { st with isAnimating := true, isPaused := false }

/-! ### Globe.animateCameraTo (src/core/Globe.js)

Each `animateCameraTo` call clones the current camera position as the tween
start, records the call time, and starts its own `requestAnimationFrame`
loop; nothing cancels a previous loop.  Per frame a loop computes
`progress = min(elapsed/duration, 1)`, eases it with `1 - (1 - p)^3`, lerps
the position, re-points the camera at the target look-at, and either
re-registers itself (`progress < 1`) or emits `camera:animation-complete`.
Within one animation frame the live callbacks run in registration order;
each earlier-started loop therefore writes before a later-started one. -/

abbrev V3 := ℚ × ℚ × ℚ

def lerp3 (a b : V3) (t : ℚ) : V3 :=
  (a.1 + (b.1 - a.1) * t, a.2.1 + (b.2.1 - a.2.1) * t, a.2.2 + (b.2.2 - a.2.2) * t)

/-- The cubic ease-out `1 - Math.pow(1 - progress, 3)`. -/
def easedOf (p : ℚ) : ℚ := 1 - (1 - p)^3

structure Tween where
  startPos : V3
  targetPos : V3
  targetLookAt : V3
  startTime : ℚ
  duration : ℚ
  deriving Repr, DecidableEq

structure CamState where
  pos : V3
  lookAt : V3
  loops : List Tween
  completeEvents : Nat
  deriving Repr, DecidableEq

/-- Model of `animateCameraTo(position, target, duration = 2000)` at wall time `now`:
captures the current camera position as the tween start and registers a new
animation-frame loop after the already-registered ones. -/
def animateCameraTo (position target : V3) (now duration : ℚ) (st : CamState) : CamState :=
  { st with loops := st.loops ++ [⟨st.pos, position, target, now, duration⟩] }

/-- The frame callback of one tween loop at time `t`: write the eased position and
the look-at, then re-register or complete (emitting
`camera:animation-complete`). -/
def tweenFrame (t : ℚ) (st : CamState) (tw : Tween) : CamState :=
  if min ((t - tw.startTime) / tw.duration) 1 < 1 then
    { st with pos := lerp3 tw.startPos tw.targetPos (easedOf (min ((t - tw.startTime) / tw.duration) 1)), lookAt := tw.targetLookAt, loops := st.loops ++ [tw] }
  else
    { st with pos := lerp3 tw.startPos tw.targetPos (easedOf (min ((t - tw.startTime) / tw.duration) 1)), lookAt := tw.targetLookAt, completeEvents := st.completeEvents + 1 }

/-- One animation frame at time `t`: run every live loop callback in
registration order; continuing loops re-register for the next frame. -/
def runFrame (t : ℚ) (st : CamState) : CamState :=
  st.loops.foldl (tweenFrame t) { st with pos := st.pos, lookAt := st.lookAt, loops := [], completeEvents := st.completeEvents }

def runFrames (ts : List ℚ) (st : CamState) : CamState :=
  ts.foldl (fun s t => runFrame t s) st

lemma mem_insertListener {y l : Listener} {ls : List Listener} :
    y ∈ insertListener l ls ↔ y = l ∨ y ∈ ls := by
  induction ls with
  | nil => simp [insertListener]
  | cons x xs ih =>
      by_cases h : l.priority ≤ x.priority
      · simp only [insertListener, if_pos h, List.mem_cons, ih]
        tauto
      · simp only [insertListener, if_neg h, List.mem_cons]

lemma pairwise_insertListener {l : Listener} {ls : List Listener}
    (h : ls.Pairwise storedRel) (htag : ∀ x ∈ ls, x.tag < l.tag) :
    (insertListener l ls).Pairwise storedRel := by
  induction ls with
  | nil => simp [insertListener]
  | cons x xs ih =>
      rcases List.pairwise_cons.mp h with ⟨hx, hxs⟩
      by_cases hp : l.priority ≤ x.priority
      · simp only [insertListener, if_pos hp]
        refine List.pairwise_cons.mpr ⟨?_, ?_⟩
        · intro y hy
          rcases mem_insertListener.mp hy with rfl | hyx
          · rcases lt_or_eq_of_le hp with hlt | heq
            · exact Or.inl hlt
            · exact Or.inr ⟨heq.symm, htag x (List.mem_cons_self x xs)⟩
          · exact hx y hyx
        · exact ih hxs (fun z hz => htag z (List.mem_cons_of_mem x hz))
      · simp only [insertListener, if_neg hp]
        push_neg at hp
        refine List.pairwise_cons.mpr ⟨?_, h⟩
        intro y hy
        rcases List.mem_cons.mp hy with rfl | hyx
        · exact Or.inl hp
        · rcases hx y hyx with hlt | ⟨heq, _⟩
          · exact Or.inl (lt_trans hlt hp)
          · exact Or.inl (heq ▸ hp)

lemma insertListener_of_le {l : Listener} {ls : List Listener}
    (h : ∀ y ∈ ls, l.priority ≤ y.priority) :
    insertListener l ls = ls ++ [l] := by
  induction ls with
  | nil => simp [insertListener]
  | cons x xs ih =>
      have hx : l.priority ≤ x.priority := h x (List.mem_cons_self x xs)
      simp only [insertListener, if_pos hx, List.cons_append]
      exact congrArg (x :: ·) (ih (fun y hy => h y (List.mem_cons_of_mem x hy)))

lemma foldl_insert_of_sorted (rest acc : List Listener)
    (hacc : ∀ x ∈ rest, ∀ y ∈ acc, x.priority ≤ y.priority)
    (hrest : rest.Pairwise (fun a b => b.priority ≤ a.priority)) :
    rest.foldl (fun acc l => insertListener l acc) acc = acc ++ rest := by
  induction rest generalizing acc with
  | nil => simp
  | cons x xs ih =>
      rcases List.pairwise_cons.mp hrest with ⟨hx, hxs⟩
      have hstep : insertListener x acc = acc ++ [x] :=
        insertListener_of_le (hacc x (List.mem_cons_self x xs))
      have hacc2 : ∀ z ∈ xs, ∀ y ∈ acc ++ [x], z.priority ≤ y.priority := by
        intro z hz y hy
        rcases List.mem_append.mp hy with hy | hy
        · exact hacc z (List.mem_cons_of_mem x hz) y hy
        · rcases List.mem_singleton.mp hy with rfl
          exact hx z hz
      calc (x :: xs).foldl (fun acc l => insertListener l acc) acc
          = xs.foldl (fun acc l => insertListener l acc) (acc ++ [x]) := by
            simp [List.foldl_cons, hstep]
        _ = (acc ++ [x]) ++ xs := ih (acc ++ [x]) hacc2 hxs
        _ = acc ++ x :: xs := by simp

/-- A listener array already sorted by descending priority is a fixed point of
the stable sort. -/
lemma sortListeners_sorted {ls : List Listener}
    (h : ls.Pairwise (fun a b => b.priority ≤ a.priority)) :
    sortListeners ls = ls := by
  have := foldl_insert_of_sorted ls [] (by intro x _ y hy; cases hy) h
  simpa [sortListeners] using this

lemma storedRel_priority_le {a b : Listener} (h : storedRel a b) :
    b.priority ≤ a.priority := by
  rcases h with h | ⟨h, _⟩
  · exact le_of_lt h
  · exact le_of_eq h.symm

lemma onListener_eq_insert {st : List Listener} {l : Listener}
    (h : st.Pairwise storedRel) :
    onListener st l = insertListener l st := by
  unfold onListener
  unfold sortListeners
  rw [List.foldl_append]
  have hfix : st.foldl (fun acc l => insertListener l acc) [] = st := by
    have := sortListeners_sorted (h.imp storedRel_priority_le)
    simpa [sortListeners] using this
  rw [hfix]
  simp

lemma registerFrom_invariant (regs : List (Bool × Int)) :
    ∀ (i : Nat) (st : List Listener), st.Pairwise storedRel →
      (∀ x ∈ st, x.tag < i) →
      (registerFrom i st regs).Pairwise storedRel := by
  induction regs with
  | nil => intro i st h _; exact h
  | cons r rest ih =>
      intro i st h htag
      obtain ⟨o, p⟩ := r
      simp only [registerFrom]
      have hins : onListener st ⟨i, o, p⟩ = insertListener ⟨i, o, p⟩ st :=
        onListener_eq_insert h
      rw [hins]
      refine ih (i + 1) _ (pairwise_insertListener h htag) ?_
      intro x hx
      rcases mem_insertListener.mp hx with rfl | hxs
      · exact Nat.lt_succ_self i
      · exact Nat.lt_succ_of_lt (htag x hxs)

/-- C2, counterexample.  Register a priority-0 handler and then a priority-5
handler; `emit` invokes the priority-0 handler first, so the invocation
order is not descending in priority as the claim states. -/
theorem emit_order_not_descending :
    ¬ (emitOrder (emitterAfter [(false, 0), (false, 5)])).Pairwise
        (fun a b => b.priority ≤ a.priority) := by
  decide

/-- C2, amended.  For any sequence of registrations, `emit` invokes handlers
in ascending priority order, and among handlers of equal priority in the
reverse of their registration order (because `emit` iterates the
descending-sorted listener array from its last element to its first). -/
theorem emit_order_ascending_reverse_registration (regs : List (Bool × Int)) :
    (emitOrder (emitterAfter regs)).Pairwise
      (fun a b => a.priority < b.priority ∨ (a.priority = b.priority ∧ b.tag < a.tag)) := by
  have h : (emitterAfter regs).Pairwise storedRel :=
    registerFrom_invariant regs 0 [] (List.Pairwise.nil) (by intro x hx; cases hx)
  have h2 : (emitOrder (emitterAfter regs)).Pairwise (flip storedRel) := by
    unfold emitOrder
    exact (List.pairwise_reverse).mpr h
  refine h2.imp ?_
  intro a b hab
  rcases hab with hlt | ⟨heq, htag⟩
  · exact Or.inl hlt
  · exact Or.inr ⟨heq.symm, htag⟩

lemma runMoves_mouseDownTime (moves : List (ℚ × ℚ)) :
    ∀ st : GestureState, (runMoves st moves).mouseDownTime = st.mouseDownTime := by
  induction moves with
  | nil => intro st; rfl
  | cons m ms ih =>
      intro st
      simp only [runMoves, List.foldl_cons]
      rw [show (List.foldl (fun s m => handleMouseMove s m.1 m.2)
            (handleMouseMove st m.1 m.2) ms) = runMoves (handleMouseMove st m.1 m.2) ms from rfl,
          ih]
      unfold handleMouseMove
      by_cases h : (25 : ℚ) < (m.1 - st.lastX) * (m.1 - st.lastX) + (m.2 - st.lastY) * (m.2 - st.lastY) <;>
        simp [h]

lemma runMoves_isDragging (moves : List (ℚ × ℚ)) :
    ∀ st : GestureState,
      (runMoves st moves).isDragging =
        (st.isDragging ||
          (moveSteps st.lastX st.lastY moves).any
            (fun d => decide (25 < d.1 * d.1 + d.2 * d.2))) := by
  induction moves with
  | nil => intro st; simp [runMoves, moveSteps]
  | cons m ms ih =>
      intro st
      obtain ⟨a, b⟩ := m
      simp only [runMoves, List.foldl_cons, moveSteps, List.any_cons]
      rw [show (List.foldl (fun s m => handleMouseMove s m.1 m.2)
            (handleMouseMove st a b) ms) = runMoves (handleMouseMove st a b) ms from rfl, ih]
      unfold handleMouseMove
      by_cases h : (25 : ℚ) < (a - st.lastX) * (a - st.lastX) + (b - st.lastY) * (b - st.lastY)
      · simp [h]
      · simp [h, Bool.or_assoc]

/-- C4, counterexample.  A press at the origin, two moves of 3 px each (to
x = 3 then x = 6, a cumulative movement of 6 px ≥ 5 px), released after
150 ms: the code classifies this cycle as a click, while the claim
(cumulative movement below 5 px required for a click) classifies it a drag. -/
theorem gesture_cumulative_counterexample :
    classifyCycle 0 0 0 [(3, 0), (6, 0)] 150 = true ∧
    ¬ (cumulativeAbsX 0 [3, 6] < 5 ∧ (150 : ℚ) - 0 < 200) := by
  constructor
  · norm_num [classifyCycle, runMoves, handleMouseDown, handleMouseMove, mouseUpIsClick]
  · intro h
    have h6 : cumulativeAbsX 0 [3, 6] = 6 := by
      norm_num [cumulativeAbsX, abs_of_nonneg]
    rw [h6] at h
    exact absurd h.1 (by norm_num)

/-- C4, amended.  A press→release cycle is classified a click iff every
single mousemove displacement has length at most 5 px (the drag flag is set
by a per-event delta strictly greater than 5 px, not by cumulative movement)
and the elapsed time is strictly below 200 ms. -/
theorem gesture_click_iff (t0 x0 y0 t1 : ℚ) (moves : List (ℚ × ℚ)) :
    classifyCycle t0 x0 y0 moves t1 = true ↔
      ((∀ d ∈ moveSteps x0 y0 moves, d.1 * d.1 + d.2 * d.2 ≤ 25) ∧ t1 - t0 < 200) := by
  unfold classifyCycle mouseUpIsClick
  rw [runMoves_mouseDownTime, runMoves_isDragging]
  simp only [handleMouseDown, Bool.and_eq_true, Bool.not_eq_true', Bool.or_eq_false_iff,
    List.any_eq_false, decide_eq_false_iff_not, not_lt, decide_eq_true_eq]
  constructor
  · rintro ⟨⟨-, hall⟩, ht⟩
    exact ⟨hall, ht⟩
  · rintro ⟨hall, ht⟩
    exact ⟨⟨trivial, hall⟩, ht⟩

/-- Witness for the amended C4 at the example inputs given in the spec: a single 3 px
move over 150 ms is a click, a single 10 px move over 150 ms is a drag, and a
3 px move over 250 ms is a drag. -/
theorem gesture_click_iff_witness :
    classifyCycle 0 0 0 [(3, 0)] 150 = true ∧
    classifyCycle 0 0 0 [(10, 0)] 150 ≠ true ∧
    classifyCycle 0 0 0 [(3, 0)] 250 ≠ true := by
  refine ⟨?_, ?_, ?_⟩
  · exact (gesture_click_iff 0 0 0 150 [(3, 0)]).mpr
      ⟨by intro d hd; simp only [moveSteps, List.mem_cons, List.not_mem_nil, or_false] at hd
          subst hd; norm_num, by norm_num⟩
  · intro h
    have := ((gesture_click_iff 0 0 0 150 [(10, 0)]).mp h).1 (10, 0)
      (by simp [moveSteps])
    norm_num at this
  · intro h
    have := ((gesture_click_iff 0 0 0 250 [(3, 0)]).mp h).2
    norm_num at this

lemma arRun_append (t1 t2 : List ARAction) :
    ∀ st : AutoRotateState,
      arRun st (t1 ++ t2) =
        ((arRun (arRun st t1).1 t2).1, (arRun st t1).2 ++ (arRun (arRun st t1).1 t2).2) := by
  induction t1 with
  | nil => intro st; simp [arRun]
  | cons a tr ih =>
      intro st
      simp [arRun, ih, List.append_assoc]

lemma ar_step_emit (st : AutoRotateState) (a : ARAction) (k : Nat)
    (h : k ∈ (arStep st a).2) : a = ARAction.fire k := by
  cases a with
  | schedule => simp [arStep] at h
  | interactStart => simp [arStep] at h
  | fire id =>
      by_cases hp : st.pending = some id
      · by_cases hi : st.isInteracting
        · simp [arStep, hp, hi] at h
        · simp only [arStep, hp, hi] at h
          simp at h
          exact h ▸ rfl
      · simp [arStep, hp] at h

lemma ar_emit_mem_fire (tr : List ARAction) :
    ∀ (st : AutoRotateState) (k : Nat), k ∈ (arRun st tr).2 → ARAction.fire k ∈ tr := by
  induction tr with
  | nil => intro st k h; simp [arRun] at h
  | cons a rest ih =>
      intro st k h
      simp only [arRun, List.mem_append] at h
      rcases h with h | h
      · exact (ar_step_emit st a k h) ▸ List.mem_cons_self _ _
      · exact List.mem_cons_of_mem a (ih _ k h)

lemma ar_step_nextId_le (st : AutoRotateState) (a : ARAction) :
    st.nextId ≤ (arStep st a).1.nextId := by
  cases a with
  | schedule => simp [arStep, stopAutoRotate]
  | interactStart => simp [arStep, stopAutoRotate]
  | fire id =>
      by_cases hp : st.pending = some id
      · by_cases hi : st.isInteracting <;> simp [arStep, hp, hi]
      · simp [arStep, hp]

lemma ar_nextId_mono (tr : List ARAction) :
    ∀ st : AutoRotateState, st.nextId ≤ (arRun st tr).1.nextId := by
  induction tr with
  | nil => intro st; simp [arRun]
  | cons a rest ih =>
      intro st
      exact le_trans (ar_step_nextId_le st a) (ih (arStep st a).1)

lemma ar_step_preserves (st : AutoRotateState) (a : ARAction) (k : Nat)
    (hp : st.pending ≠ some k) (hk : k < st.nextId) :
    (arStep st a).1.pending ≠ some k ∧ k < (arStep st a).1.nextId ∧ k ∉ (arStep st a).2 := by
  cases a with
  | schedule =>
      refine ⟨?_, ?_, ?_⟩
      · simp only [arStep, stopAutoRotate, ne_eq, Option.some.injEq]
        omega
      · simp only [arStep, stopAutoRotate]
        omega
      · simp [arStep, stopAutoRotate]
  | interactStart =>
      exact ⟨by simp [arStep, stopAutoRotate], by simpa [arStep, stopAutoRotate] using hk,
        by simp [arStep, stopAutoRotate]⟩
  | fire id =>
      by_cases hpi : st.pending = some id
      · by_cases hi : st.isInteracting
        · exact ⟨by simp [arStep, hpi, hi], by simpa [arStep, hpi, hi] using hk,
            by simp [arStep, hpi, hi]⟩
        · refine ⟨by simp [arStep, hpi, hi], by simpa [arStep, hpi, hi] using hk, ?_⟩
          have hemit : (arStep st (ARAction.fire id)).2 = [id] := by simp [arStep, hpi, hi]
          rw [hemit, List.mem_singleton]
          intro hkid
          exact hp (hkid ▸ hpi)
      · exact ⟨by simpa [arStep, hpi] using hp, by simpa [arStep, hpi] using hk,
          by simp [arStep, hpi]⟩

lemma ar_no_emit (tr : List ARAction) :
    ∀ (st : AutoRotateState) (k : Nat), st.pending ≠ some k → k < st.nextId →
      k ∉ (arRun st tr).2 := by
  induction tr with
  | nil => intro st k _ _ h; simp [arRun] at h
  | cons a rest ih =>
      intro st k hp hk h
      obtain ⟨hp1, hk1, hne⟩ := ar_step_preserves st a k hp hk
      simp only [arRun, List.mem_append] at h
      rcases h with h | h
      · exact hne h
      · exact ih (arStep st a).1 k hp1 hk1 h

lemma arRun_snd_append (t1 t2 : List ARAction) (st : AutoRotateState) :
    (arRun st (t1 ++ t2)).2 = (arRun st t1).2 ++ (arRun (arRun st t1).1 t2).2 := by
  rw [arRun_append t1 t2 st]

lemma ar_no_pending_no_emit (tr : List ARAction) :
    ∀ st : AutoRotateState, ARAction.schedule ∉ tr → st.pending = none →
      (arRun st tr).2 = [] := by
  induction tr with
  | nil => intro st _ _; simp [arRun]
  | cons a rest ih =>
      intro st hs hp
      have hs2 : ARAction.schedule ∉ rest := fun h => hs (List.mem_cons_of_mem a h)
      cases a with
      | schedule => exact absurd (List.mem_cons_self _ _) hs
      | interactStart =>
          simp only [arRun]
          rw [ih _ hs2 (by simp [arStep, stopAutoRotate])]
          simp [arStep, stopAutoRotate]
      | fire id =>
          have hne : st.pending ≠ some id := by simp [hp]
          simp only [arRun]
          rw [ih _ hs2 (by simp [arStep, hne, hp])]
          simp [arStep, hne]

lemma ar_pending_emits_le_one (tr : List ARAction) :
    ∀ st : AutoRotateState, ARAction.schedule ∉ tr →
      ((arRun st tr).2).length ≤ 1 := by
  induction tr with
  | nil => intro st _; simp [arRun]
  | cons a rest ih =>
      intro st hs
      have hs2 : ARAction.schedule ∉ rest := fun h => hs (List.mem_cons_of_mem a h)
      cases a with
      | schedule => exact absurd (List.mem_cons_self _ _) hs
      | interactStart =>
          simp only [arRun, List.length_append]
          rw [ar_no_pending_no_emit rest _ hs2 (by simp [arStep, stopAutoRotate])]
          simp [arStep, stopAutoRotate]
      | fire id =>
          by_cases hpi : st.pending = some id
          · simp only [arRun, List.length_append]
            rw [ar_no_pending_no_emit rest _ hs2 (by by_cases hi : st.isInteracting <;> simp [arStep, hpi, hi])]
            by_cases hi : st.isInteracting <;> simp [arStep, hpi, hi]
          · simp only [arRun, List.length_append]
            have hstep : arStep st (ARAction.fire id) = (st, []) := by simp [arStep, hpi]
            rw [hstep]
            simpa using ih st hs2

/-- C5.  (1) If the idle timer scheduled by a `scheduleAutoRotate` call is not
fired before a new interaction starts, then that timer never emits an
`auto-rotate-started` event anywhere in the run — interaction start cancels
the pending timeout synchronously.  (2) Scheduling twice in a row (with no
further scheduling) produces at most one firing: each scheduling first
cancels any pending timeout. -/
theorem autoRotate_cancel_before_fire :
    (∀ (st : AutoRotateState) (mid post : List ARAction),
        ARAction.fire st.nextId ∉ mid →
        st.nextId ∉ (arRun st ([ARAction.schedule] ++ mid ++ [ARAction.interactStart] ++ post)).2) ∧
    (∀ (st : AutoRotateState) (rest : List ARAction),
        ARAction.schedule ∉ rest →
        ((arRun st ([ARAction.schedule, ARAction.schedule] ++ rest)).2).length ≤ 1) := by
  constructor
  · intro st mid post hmid hmem
    rw [show [ARAction.schedule] ++ mid ++ [ARAction.interactStart] ++ post =
          [ARAction.schedule] ++ (mid ++ ([ARAction.interactStart] ++ post)) by
        simp] at hmem
    rw [arRun_snd_append [ARAction.schedule] (mid ++ ([ARAction.interactStart] ++ post)) st]
      at hmem
    have hsched2 : (arRun st [ARAction.schedule]).2 = [] := by simp [arRun, arStep]
    rw [hsched2, List.nil_append] at hmem
    set st1 := (arRun st [ARAction.schedule]).1 with hst1
    have hst1pend : st1.pending = some st.nextId := by
      simp [hst1, arRun, arStep, stopAutoRotate]
    have hst1next : st1.nextId = st.nextId + 1 := by
      simp [hst1, arRun, arStep, stopAutoRotate]
    rw [arRun_snd_append mid ([ARAction.interactStart] ++ post) st1] at hmem
    rcases List.mem_append.mp hmem with hmem | hmem
    · exact hmid (ar_emit_mem_fire mid st1 st.nextId hmem)
    · set stm := (arRun st1 mid).1 with hstm
      rw [arRun_snd_append [ARAction.interactStart] post stm] at hmem
      rcases List.mem_append.mp hmem with hmem | hmem
      · simp [arRun, arStep] at hmem
      · set sti := (arRun stm [ARAction.interactStart]).1 with hsti
        have hip : sti.pending = none := by
          simp [hsti, arRun, arStep, stopAutoRotate]
        have hin : st.nextId < sti.nextId := by
          have h1 : st1.nextId ≤ stm.nextId := ar_nextId_mono mid st1
          have h2 : sti.nextId = stm.nextId := by
            simp [hsti, arRun, arStep, stopAutoRotate]
          omega
        exact ar_no_emit post sti st.nextId (by simp [hip]) hin hmem
  · intro st rest hrest
    rw [show ([ARAction.schedule, ARAction.schedule] ++ rest : List ARAction) =
          [ARAction.schedule, ARAction.schedule] ++ rest from rfl,
        arRun_snd_append [ARAction.schedule, ARAction.schedule] rest st]
    have h2 : (arRun st [ARAction.schedule, ARAction.schedule]).2 = [] := by
      simp [arRun, arStep]
    rw [h2, List.nil_append]
    exact ar_pending_emits_le_one rest (arRun st [ARAction.schedule, ARAction.schedule]).1 hrest

/-- Witness for C5 at a concrete initial state and traces: scheduling, then
starting an interaction, then the (cancelled) timer attempting to fire emits
nothing; scheduling twice and firing both timer ids emits at most once. -/
theorem autoRotate_cancel_before_fire_witness :
    0 ∉ (arRun ⟨0, none, false, false⟩
          ([ARAction.schedule] ++ [] ++ [ARAction.interactStart] ++ [ARAction.fire 0])).2 ∧
    ((arRun ⟨0, none, false, false⟩
          ([ARAction.schedule, ARAction.schedule] ++ [ARAction.fire 0, ARAction.fire 1])).2).length ≤ 1 := by
  constructor
  · exact autoRotate_cancel_before_fire.1 ⟨0, none, false, false⟩ [] [ARAction.fire 0]
      (by simp)
  · exact autoRotate_cancel_before_fire.2 ⟨0, none, false, false⟩ [ARAction.fire 0, ARAction.fire 1]
      (by simp)

/-- C10.  The `tolerance` parameter of `getEngagementByCoords` has no effect
on the result, and when the first bounding box (in table order) containing
the coordinate belongs to a country without an engagement record, the result
is `null` — no later box is consulted. -/
theorem engagement_lookup_tolerance_irrelevant :
    (∀ (α : Type) (eng : String → Option α) (lat lng t1 t2 : ℚ),
        getEngagementByCoords eng lat lng t1 = getEngagementByCoords eng lat lng t2) ∧
    (∀ (α : Type) (eng : String → Option α) (lat lng t : ℚ) (c : String) (b : CountryBox),
        firstMatchingBox lat lng = some (c, b) → eng c = none →
        getEngagementByCoords eng lat lng t = none) := by
  constructor
  · intro α eng lat lng t1 t2
    rfl
  · intro α eng lat lng t c b hfind hnone
    unfold getEngagementByCoords
    rw [hfind]
    simp [hnone]

/-- Witness for C10: the point (lat 5, lng 118) lies inside both the MYS box
(0.8…7.5, 99…120) and the later PHL box (4…21, 116…127); with a record for
PHL but none for MYS the lookup still returns `null`, and tolerances 0 and 99
agree everywhere. -/
theorem engagement_lookup_tolerance_irrelevant_witness :
    getEngagementByCoords (fun c => if c = "PHL" then some () else none) 5 118 0 =
      getEngagementByCoords (fun c => if c = "PHL" then some () else none) 5 118 99 ∧
    getEngagementByCoords (fun c => if c = "PHL" then some () else none) 5 118 5 = none := by
  constructor
  · exact engagement_lookup_tolerance_irrelevant.1 Unit
      (fun c => if c = "PHL" then some () else none) 5 118 0 99
  · exact engagement_lookup_tolerance_irrelevant.2 Unit
      (fun c => if c = "PHL" then some () else none) 5 118 5 "MYS" ⟨4/5, 15/2, 99, 120⟩
      (by norm_num [firstMatchingBox, countryBounds, boxContains, List.find?]) (by decide)

/-- C3 (code slip).  Two consecutive frames whose pointer resolves to the
same region (Singapore, at lat 1.35 / lng 103.82) emit two `country:hovered`
events, not one: the debouncing guard `engagementData !== this.hoveredCountry`
never fires because `getEngagementByCoords` allocates a fresh object on every
call.  Leaving the globe does emit a single `country:hover-end`. -/
theorem hover_reemits_on_identical_frames :
    (hoverFrames engSGP initialHoverState
        [some (27/20, 5191/50), some (27/20, 5191/50)]).hoveredEvents = 2 ∧
    (hoverFrames engSGP initialHoverState
        [some (27/20, 5191/50), none, none]).hoverEndEvents = 1 := by
  have hbox : firstMatchingBox (27/20) (5191/50) = some ("SGP", ⟨11/10, 3/2, 518/5, 104⟩) := by
    norm_num [firstMatchingBox, countryBounds, boxContains, List.find?]
  constructor <;>
    simp [hoverFrames, hoverFrame, getEngagementByCoords, hbox, engSGP, initialHoverState]

/-- C8, counterexample.  A click whose coordinate resolves to the Singapore
bounding box while Singapore has no engagement record emits `globe:clicked`
— not the distinct `country:no-data` event the claim requires (that event is
only emitted by the unwired `handleCountryClick` entry point). -/
theorem click_no_data_counterexample :
    handleGlobeClick engNone (some (27/20, 5191/50)) = [GlobeEvent.globeClicked] ∧
    ∀ c, GlobeEvent.countryNoData c ∉ handleGlobeClick engNone (some (27/20, 5191/50)) := by
  have hbox2 : firstMatchingBox (27/20) (5191/50) = some ("SGP", ⟨11/10, 3/2, 518/5, 104⟩) := by
    norm_num [firstMatchingBox, countryBounds, boxContains, List.find?]
  have h : handleGlobeClick engNone (some (27/20, 5191/50)) = [GlobeEvent.globeClicked] := by
    simp [handleGlobeClick, getEngagementByCoords, hbox2, engNone]
  refine ⟨h, ?_⟩
  intro c hc
  rw [h] at hc
  simp at hc

/-- C8, amended.  On the wired pointer path, a click resolving to a region
with no record emits `globe:clicked` (an event, not an error) and no
`country:clicked`; the distinct `country:no-data` event is emitted — instead
of `country:clicked` — only by the `handleCountryClick` entry point, which no
pointer event reaches in the sources. -/
theorem click_no_data_amended :
    (∀ (α : Type) (eng : String → Option α) (iso : String), eng iso = none →
        handleCountryClick eng iso = [GlobeEvent.countryNoData iso]) ∧
    (∀ (α : Type) (eng : String → Option α) (lat lng : ℚ) (c : String) (b : CountryBox),
        firstMatchingBox lat lng = some (c, b) → eng c = none →
        handleGlobeClick eng (some (lat, lng)) = [GlobeEvent.globeClicked]) := by
  constructor
  · intro α eng iso h
    unfold handleCountryClick
    rw [h]
  · intro α eng lat lng c b hfind hnone
    simp [handleGlobeClick, getEngagementByCoords, hfind, hnone]

/-- Witness for the amended C8: `handleCountryClick` on a country without a
record emits exactly `country:no-data`, and a pointer click resolving to the
record-less Singapore box emits exactly `globe:clicked`. -/
theorem click_no_data_amended_witness :
    handleCountryClick engNone "SGP" = [GlobeEvent.countryNoData "SGP"] ∧
    handleGlobeClick engNone (some (27/20, 5191/50)) = [GlobeEvent.globeClicked] := by
  constructor
  · exact click_no_data_amended.1 Unit engNone "SGP" rfl
  · exact click_no_data_amended.2 Unit engNone (27/20) (5191/50) "SGP" ⟨11/10, 3/2, 518/5, 104⟩
      (by norm_num [firstMatchingBox, countryBounds, boxContains, List.find?]) rfl

lemma coordValid_iff (x : JsNum) (lo hi : ℚ) :
    (jsIsNaN x = false ∧ jsLe (.fin lo) x = true ∧ jsLe x (.fin hi) = true) ↔
      finiteInRange x lo hi := by
  cases x <;> simp [jsIsNaN, jsLe, finiteInRange]

lemma isValidArc_iff (a : Arc) :
    isValidArc a = true ↔
      (finiteInRange a.startLat (-90) 90 ∧ finiteInRange a.endLat (-90) 90 ∧
        finiteInRange a.startLng (-180) 180 ∧ finiteInRange a.endLng (-180) 180) := by
  have h1 := coordValid_iff a.startLat (-90) 90
  have h2 := coordValid_iff a.endLat (-90) 90
  have h3 := coordValid_iff a.startLng (-180) 180
  have h4 := coordValid_iff a.endLng (-180) 180
  simp only [isValidArc, Bool.and_eq_true, Bool.not_eq_true']
  tauto

lemma filter_length_compl {α : Type} (p : α → Bool) (l : List α) :
    (l.filter p).length + (l.filter (fun a => !p a)).length = l.length := by
  induction l with
  | nil => simp
  | cons x xs ih =>
      by_cases h : p x = true
      · simp [List.filter_cons, h, Nat.succ_add, ih]
      · have hb : p x = false := by simpa using h
        simp [List.filter_cons, hb, ih]
        omega

/-- C6.  An arc is in the renderable set iff it is one of the loaded arcs and
all four of its coordinates are finite and within the valid latitude and
longitude ranges; every excluded arc is counted by a diagnostic (the kept
arcs and the diagnostics partition the input, nothing is thrown). -/
theorem arc_validation (projects : List Arc) (arc : Arc) :
    (arc ∈ (loadProjectArcs projects).1 ↔
      arc ∈ projects ∧ finiteInRange arc.startLat (-90) 90 ∧
        finiteInRange arc.endLat (-90) 90 ∧ finiteInRange arc.startLng (-180) 180 ∧
        finiteInRange arc.endLng (-180) 180) ∧
    (loadProjectArcs projects).1.length + (loadProjectArcs projects).2 = projects.length := by
  constructor
  · rw [show (loadProjectArcs projects).1 = projects.filter isValidArc from rfl,
      List.mem_filter, isValidArc_iff]
  · exact filter_length_compl isValidArc projects

/-- Witness for C6 at the example given in the spec: an arc with start latitude 95 is
excluded, an arc with all four coordinates valid is retained, and the
renderable set plus the diagnostics account for both inputs. -/
theorem arc_validation_witness :
    (⟨.fin 1, .fin 103, .fin 20, .fin 78, true, 0, 0⟩ : Arc) ∈
      (loadProjectArcs [⟨.fin 1, .fin 103, .fin 20, .fin 78, true, 0, 0⟩,
        ⟨.fin 95, .fin 103, .fin 20, .fin 78, true, 0, 0⟩]).1 ∧
    (⟨.fin 95, .fin 103, .fin 20, .fin 78, true, 0, 0⟩ : Arc) ∉
      (loadProjectArcs [⟨.fin 1, .fin 103, .fin 20, .fin 78, true, 0, 0⟩,
        ⟨.fin 95, .fin 103, .fin 20, .fin 78, true, 0, 0⟩]).1 ∧
    (loadProjectArcs [(⟨.fin 1, .fin 103, .fin 20, .fin 78, true, 0, 0⟩ : Arc),
        ⟨.fin 95, .fin 103, .fin 20, .fin 78, true, 0, 0⟩]).1.length +
      (loadProjectArcs [(⟨.fin 1, .fin 103, .fin 20, .fin 78, true, 0, 0⟩ : Arc),
        ⟨.fin 95, .fin 103, .fin 20, .fin 78, true, 0, 0⟩]).2 = 2 := by
  refine ⟨?_, ?_, ?_⟩
  · refine (arc_validation _ _).1.mpr ⟨by simp, ?_, ?_, ?_, ?_⟩
    · exact ⟨1, rfl, by norm_num, by norm_num⟩
    · exact ⟨20, rfl, by norm_num, by norm_num⟩
    · exact ⟨103, rfl, by norm_num, by norm_num⟩
    · exact ⟨78, rfl, by norm_num, by norm_num⟩
  · intro h
    obtain ⟨-, hlat, -, -, -⟩ := (arc_validation _ _).1.mp h
    obtain ⟨q, hq, -, hq2⟩ := hlat
    rw [JsNum.fin.injEq] at hq
    rw [← hq] at hq2
    norm_num at hq2
  · exact (arc_validation [⟨.fin 1, .fin 103, .fin 20, .fin 78, true, 0, 0⟩,
      ⟨.fin 95, .fin 103, .fin 20, .fin 78, true, 0, 0⟩] ⟨.fin 1, .fin 103, .fin 20, .fin 78, true, 0, 0⟩).2

lemma lerp_channel_dist (n h : ℚ) {t1 t2 : ℚ} (ht : t1 ≤ t2) (ht2 : t2 ≤ 1) :
    |n + (h - n) * t2 - h| ≤ |n + (h - n) * t1 - h| := by
  have e : ∀ t : ℚ, n + (h - n) * t - h = (1 - t) * (n - h) := by intro t; ring
  rw [e, e, abs_mul, abs_mul]
  refine mul_le_mul_of_nonneg_right ?_ (abs_nonneg _)
  rw [abs_of_nonneg (by linarith), abs_of_nonneg (by linarith)]
  linarith

lemma lerp_channel_between (n h : ℚ) {t : ℚ} (h0 : 0 ≤ t) (h1 : t ≤ 1) :
    min n h ≤ n + (h - n) * t ∧ n + (h - n) * t ≤ max n h := by
  rcases le_total n h with hc | hc
  · rw [min_eq_left hc, max_eq_right hc]
    constructor <;> nlinarith
  · rw [min_eq_right hc, max_eq_left hc]
    constructor <;> nlinarith

lemma colorIntensity_mono {w1 w2 : ℚ} (h : w1 ≤ w2) :
    colorIntensity w1 ≤ colorIntensity w2 := by
  unfold colorIntensity
  exact min_le_min (by linarith) le_rfl

lemma colorIntensity_le_one (w : ℚ) : colorIntensity w ≤ 1 :=
  min_le_right _ _

lemma colorIntensity_nonneg {w : ℚ} (h : 0 ≤ w) : 0 ≤ colorIntensity w :=
  le_min (by positivity) zero_le_one

/-- C7.  The region weight→color mapping: the home region (India) always
receives the gold accent regardless of its weight; the color of a weighted region
is the clamped white→highlight interpolation; weight 0 gives exactly the
neutral color; any weight at or above the cap (10) gives exactly the
highlight color; the interpolation factor is monotone non-decreasing in the
weight and each channel moves monotonically toward the highlight, always
staying between the neutral and highlight channel values (so it never
exceeds the highlight). -/
theorem country_color_monotone_saturating :
    (∀ (gold blue : ColorRGB) (dm : String → Option ℚ),
        getEnhancedCountryColor gold blue dm "IND" = gold) ∧
    (∀ (gold blue : ColorRGB) (dm : String → Option ℚ) (iso : String) (w : ℚ),
        iso ≠ "IND" → dm iso = some w →
        getEnhancedCountryColor gold blue dm iso =
          interpolateColor defaultCountryColor blue (colorIntensity w)) ∧
    (∀ blue : ColorRGB,
        interpolateColor defaultCountryColor blue (colorIntensity 0) = defaultCountryColor) ∧
    (∀ (blue : ColorRGB) (w : ℚ), 10 ≤ w →
        interpolateColor defaultCountryColor blue (colorIntensity w) = blue) ∧
    (∀ (blue : ColorRGB) (w1 w2 : ℚ), w1 ≤ w2 →
        colorIntensity w1 ≤ colorIntensity w2 ∧
        |(interpolateColor defaultCountryColor blue (colorIntensity w2)).r - blue.r| ≤
          |(interpolateColor defaultCountryColor blue (colorIntensity w1)).r - blue.r| ∧
        |(interpolateColor defaultCountryColor blue (colorIntensity w2)).g - blue.g| ≤
          |(interpolateColor defaultCountryColor blue (colorIntensity w1)).g - blue.g| ∧
        |(interpolateColor defaultCountryColor blue (colorIntensity w2)).b - blue.b| ≤
          |(interpolateColor defaultCountryColor blue (colorIntensity w1)).b - blue.b|) ∧
    (∀ (blue : ColorRGB) (w : ℚ), 0 ≤ w →
        min 1 blue.r ≤ (interpolateColor defaultCountryColor blue (colorIntensity w)).r ∧
        (interpolateColor defaultCountryColor blue (colorIntensity w)).r ≤ max 1 blue.r ∧
        min 1 blue.g ≤ (interpolateColor defaultCountryColor blue (colorIntensity w)).g ∧
        (interpolateColor defaultCountryColor blue (colorIntensity w)).g ≤ max 1 blue.g ∧
        min 1 blue.b ≤ (interpolateColor defaultCountryColor blue (colorIntensity w)).b ∧
        (interpolateColor defaultCountryColor blue (colorIntensity w)).b ≤ max 1 blue.b) := by
  refine ⟨?_, ?_, ?_, ?_, ?_, ?_⟩
  · intro gold blue dm
    simp [getEnhancedCountryColor]
  · intro gold blue dm iso w hiso hdm
    simp [getEnhancedCountryColor, hiso, hdm]
  · intro blue
    have h0 : colorIntensity 0 = 0 := by
      unfold colorIntensity
      norm_num
    obtain ⟨br, bg, bb⟩ := blue
    simp only [interpolateColor, lerpColor, defaultCountryColor, h0, ColorRGB.mk.injEq]
    refine ⟨by ring, by ring, by ring⟩
  · intro blue w hw
    have h1 : colorIntensity w = 1 := by
      unfold colorIntensity
      rw [min_eq_right]
      rw [le_div_iff₀ (by norm_num)]
      linarith
    obtain ⟨br, bg, bb⟩ := blue
    simp only [interpolateColor, lerpColor, defaultCountryColor, h1, ColorRGB.mk.injEq]
    refine ⟨by ring, by ring, by ring⟩
  · intro blue w1 w2 hw
    have hm := colorIntensity_mono hw
    have h1 := colorIntensity_le_one w2
    refine ⟨hm, ?_, ?_, ?_⟩ <;>
      simpa [interpolateColor, lerpColor, defaultCountryColor] using
        lerp_channel_dist 1 _ hm h1
  · intro blue w hw
    have h0 := colorIntensity_nonneg hw
    have h1 := colorIntensity_le_one w
    have hr := lerp_channel_between 1 blue.r h0 h1
    have hg := lerp_channel_between 1 blue.g h0 h1
    have hb := lerp_channel_between 1 blue.b h0 h1
    exact ⟨by simpa [interpolateColor, lerpColor, defaultCountryColor] using hr.1,
      by simpa [interpolateColor, lerpColor, defaultCountryColor] using hr.2,
      by simpa [interpolateColor, lerpColor, defaultCountryColor] using hg.1,
      by simpa [interpolateColor, lerpColor, defaultCountryColor] using hg.2,
      by simpa [interpolateColor, lerpColor, defaultCountryColor] using hb.1,
      by simpa [interpolateColor, lerpColor, defaultCountryColor] using hb.2⟩

/-- Witness for C7 at concrete colors (gold ⟨1,1,0⟩, highlight ⟨0,0,1⟩) and a
data map giving Singapore 4 projects. -/
theorem country_color_monotone_saturating_witness :
    getEnhancedCountryColor ⟨1, 1, 0⟩ ⟨0, 0, 1⟩
        (fun c => if c = "SGP" then some (4 : ℚ) else none) "IND" = ⟨1, 1, 0⟩ ∧
    getEnhancedCountryColor ⟨1, 1, 0⟩ ⟨0, 0, 1⟩
        (fun c => if c = "SGP" then some (4 : ℚ) else none) "SGP" =
      interpolateColor defaultCountryColor ⟨0, 0, 1⟩ (colorIntensity 4) ∧
    interpolateColor defaultCountryColor ⟨0, 0, 1⟩ (colorIntensity 0) = defaultCountryColor ∧
    interpolateColor defaultCountryColor ⟨0, 0, 1⟩ (colorIntensity 12) = ⟨0, 0, 1⟩ ∧
    colorIntensity 3 ≤ colorIntensity 7 := by
  refine ⟨country_color_monotone_saturating.1 ⟨1, 1, 0⟩ ⟨0, 0, 1⟩ _,
    country_color_monotone_saturating.2.1 ⟨1, 1, 0⟩ ⟨0, 0, 1⟩ _ "SGP" 4 (by decide) (by simp),
    country_color_monotone_saturating.2.2.1 ⟨0, 0, 1⟩,
    country_color_monotone_saturating.2.2.2.1 ⟨0, 0, 1⟩ 12 (by norm_num),
    (country_color_monotone_saturating.2.2.2.2.1 ⟨0, 0, 1⟩ 3 7 (by norm_num)).1⟩

/-- C9, counterexample.  Start at t=0, frame at t=1000 (elapsed reaches 1 s),
pause; a tick at t=2000 delivers no frame; resume at t=3000 and tick at
t=3100: the deltaTime of that frame is 0.1 s (no spike covering the paused
interval) but its elapsedTime is 0.1 s as well — the `clock.start()` call in
`resume()` reset the elapsed clock to zero, so elapsed time does not continue from its
pre-pause value of 1 s. -/
theorem pause_resume_counterexample :
    (sceneAnimate 2000 (scenePause (sceneAnimate 1000 (sceneStart 0 initialSceneState)))).frames
        = [(0, 0), (1, 1)] ∧
    (sceneAnimate 3100 (sceneResume 3000 (sceneAnimate 2000 (scenePause
        (sceneAnimate 1000 (sceneStart 0 initialSceneState)))))).frames
        = [(0, 0), (1, 1), (1/10, 1/10)] ∧
    ¬ ((1 : ℚ) ≤ 1/10) := by
  refine ⟨?_, ?_, by norm_num⟩ <;>
    norm_num [sceneAnimate, sceneStart, scenePause, sceneResume, initialSceneState,
      newClock, getDelta, getElapsedTime, clockStart]

/-- C9, amended.  While paused, a tick is a no-op: no frame callback, no
clock mutation, no elapsed accumulation, and no other state (in-flight
frames, animating flag) is lost; `pause`/`resume` themselves touch nothing
but the pause flag and the clock baseline.  The first tick after
`resume(tr)` at time `tf` reports deltaTime `(tf - tr)/1000` — determined
only by the time since resume, never covering the paused interval — and an
elapsedTime restarted at `(tf - tr)/1000` rather than continuing from the
pre-pause elapsed value. -/
theorem pause_resume_amended :
    (∀ (t : ℚ) (st : SceneState), sceneAnimate t (scenePause st) = scenePause st) ∧
    (∀ st : SceneState, (scenePause st).frames = st.frames ∧
        (scenePause st).isAnimating = st.isAnimating ∧ (scenePause st).clock = st.clock) ∧
    (∀ (tr : ℚ) (st : SceneState), (sceneResume tr st).frames = st.frames ∧
        (sceneResume tr st).isAnimating = st.isAnimating) ∧
    (∀ (tr tf : ℚ) (st : SceneState), st.isAnimating = true →
        (sceneAnimate tf (sceneResume tr st)).frames =
          st.frames ++ [((tf - tr) / 1000, (tf - tr) / 1000)]) := by
  refine ⟨?_, ?_, ?_, ?_⟩
  · intro t st
    by_cases h : st.isAnimating = true <;> simp [sceneAnimate, scenePause, h]
  · intro st
    exact ⟨rfl, rfl, rfl⟩
  · intro tr st
    exact ⟨rfl, rfl⟩
  · intro tr tf st hA
    simp only [sceneAnimate, sceneResume, clockStart, getDelta, getElapsedTime, hA]
    norm_num

/-- Witness for the amended C9 at a concrete mid-run state (elapsed 1 s,
paused after two frames, resumed at t=3000, next tick at t=3100). -/
theorem pause_resume_amended_witness :
    sceneAnimate 2000 (scenePause ⟨true, false, ⟨true, 0, 1000, 1, true⟩, [(0, 0), (1, 1)]⟩) =
      scenePause ⟨true, false, ⟨true, 0, 1000, 1, true⟩, [(0, 0), (1, 1)]⟩ ∧
    (sceneAnimate 3100 (sceneResume 3000
        ⟨true, true, ⟨true, 0, 1000, 1, true⟩, [(0, 0), (1, 1)]⟩)).frames =
      [(0, 0), (1, 1)] ++ [((3100 - 3000) / 1000, (3100 - 3000) / 1000)] := by
  exact ⟨pause_resume_amended.1 2000 _,
    pause_resume_amended.2.2.2 3000 3100 ⟨true, true, ⟨true, 0, 1000, 1, true⟩, [(0, 0), (1, 1)]⟩ rfl⟩

lemma lerp3_one (x y : V3) : lerp3 x y 1 = y := by
  obtain ⟨y1, y2, y3⟩ := y
  simp only [lerp3, Prod.mk.injEq]
  refine ⟨by ring, by ring, by ring⟩

lemma tweenFrame_keep {t : ℚ} {tw : Tween} (hd : 0 < tw.duration)
    (h : t < tw.startTime + tw.duration) (st : CamState) :
    tweenFrame t st tw =
      { st with pos := lerp3 tw.startPos tw.targetPos (easedOf (min ((t - tw.startTime) / tw.duration) 1)), lookAt := tw.targetLookAt, loops := st.loops ++ [tw] } := by
  unfold tweenFrame
  rw [if_pos]
  exact lt_of_le_of_lt (min_le_left _ _) ((div_lt_one hd).mpr (by linarith))

lemma tweenFrame_done {t : ℚ} {tw : Tween} (hd : 0 < tw.duration)
    (h : tw.startTime + tw.duration ≤ t) (st : CamState) :
    tweenFrame t st tw =
      { st with pos := tw.targetPos, lookAt := tw.targetLookAt, completeEvents := st.completeEvents + 1 } := by
  have hp : min ((t - tw.startTime) / tw.duration) 1 = 1 := by
    rw [min_eq_right]
    rw [le_div_iff₀ hd]
    linarith
  unfold tweenFrame
  rw [hp]
  rw [if_neg (lt_irrefl 1)]
  have he : easedOf 1 = 1 := by norm_num [easedOf]
  rw [he, lerp3_one]

lemma runFrame_loops_nil {t : ℚ} {st : CamState} (h : st.loops = []) :
    runFrame t st = st := by
  obtain ⟨p, l, lo, e⟩ := st
  simp only at h
  subst h
  rfl

lemma runFrames_loops_nil {ts : List ℚ} {st : CamState} (h : st.loops = []) :
    runFrames ts st = st := by
  induction ts with
  | nil => rfl
  | cons t ts ih =>
      show runFrames ts (runFrame t st) = st
      rw [runFrame_loops_nil h]
      exact ih

lemma runFrame_single {t : ℚ} {b : Tween} (p l : V3) (e : Nat) :
    runFrame t ⟨p, l, [b], e⟩ = tweenFrame t ⟨p, l, [], e⟩ b := rfl

lemma runFrame_double {t : ℚ} {a b : Tween} (p l : V3) (e : Nat) :
    runFrame t ⟨p, l, [a, b], e⟩ = tweenFrame t (tweenFrame t ⟨p, l, [], e⟩ a) b := rfl

lemma runFrames_one_pending (fs : List ℚ) {b : Tween} (hdb : 0 < b.duration)
    (hfs : ∀ x ∈ fs, x < b.startTime + b.duration) :
    ∀ (p l : V3) (e : Nat), ∃ p2 l2,
      runFrames fs ⟨p, l, [b], e⟩ = ⟨p2, l2, [b], e⟩ := by
  induction fs with
  | nil => intro p l e; exact ⟨p, l, rfl⟩
  | cons t ts ih =>
      intro p l e
      have ht : t < b.startTime + b.duration := hfs t (List.mem_cons_self t ts)
      have hstep : runFrame t ⟨p, l, [b], e⟩ =
          ⟨lerp3 b.startPos b.targetPos (easedOf (min ((t - b.startTime) / b.duration) 1)), b.targetLookAt, [b], e⟩ := by
        rw [runFrame_single, tweenFrame_keep hdb ht]
        rfl
      show ∃ p2 l2, runFrames ts (runFrame t ⟨p, l, [b], e⟩) = ⟨p2, l2, [b], e⟩
      rw [hstep]
      exact ih (fun x hx => hfs x (List.mem_cons_of_mem t hx)) _ _ _

lemma runFrames_two_pending (fs : List ℚ) {a b : Tween}
    (hda : 0 < a.duration) (hdb : 0 < b.duration)
    (hfs : ∀ x ∈ fs, x < b.startTime + b.duration) :
    ∀ (p l : V3) (e : Nat),
      (∃ p2 l2, runFrames fs ⟨p, l, [a, b], e⟩ = ⟨p2, l2, [a, b], e⟩) ∨
      (∃ p2 l2, runFrames fs ⟨p, l, [a, b], e⟩ = ⟨p2, l2, [b], e + 1⟩) := by
  induction fs with
  | nil => intro p l e; exact Or.inl ⟨p, l, rfl⟩
  | cons t ts ih =>
      intro p l e
      have ht : t < b.startTime + b.duration := hfs t (List.mem_cons_self t ts)
      have htf : ∀ x ∈ ts, x < b.startTime + b.duration :=
        fun x hx => hfs x (List.mem_cons_of_mem t hx)
      show (∃ p2 l2, runFrames ts (runFrame t ⟨p, l, [a, b], e⟩) = ⟨p2, l2, [a, b], e⟩) ∨
        (∃ p2 l2, runFrames ts (runFrame t ⟨p, l, [a, b], e⟩) = ⟨p2, l2, [b], e + 1⟩)
      rw [runFrame_double]
      by_cases hA : t < a.startTime + a.duration
      · have h1 : tweenFrame t (⟨p, l, [], e⟩ : CamState) a =
            ⟨lerp3 a.startPos a.targetPos (easedOf (min ((t - a.startTime) / a.duration) 1)), a.targetLookAt, [a], e⟩ := by
          rw [tweenFrame_keep hda hA]
          rfl
        have h2 : tweenFrame t
            (⟨lerp3 a.startPos a.targetPos (easedOf (min ((t - a.startTime) / a.duration) 1)), a.targetLookAt, [a], e⟩ : CamState) b =
            ⟨lerp3 b.startPos b.targetPos (easedOf (min ((t - b.startTime) / b.duration) 1)), b.targetLookAt, [a, b], e⟩ := by
          rw [tweenFrame_keep hdb ht]
          rfl
        rw [h1, h2]
        exact ih htf _ _ _
      · push_neg at hA
        have h1 : tweenFrame t (⟨p, l, [], e⟩ : CamState) a =
            ⟨a.targetPos, a.targetLookAt, [], e + 1⟩ := by
          rw [tweenFrame_done hda hA]
        have h2 : tweenFrame t (⟨a.targetPos, a.targetLookAt, [], e + 1⟩ : CamState) b =
            ⟨lerp3 b.startPos b.targetPos (easedOf (min ((t - b.startTime) / b.duration) 1)), b.targetLookAt, [b], e + 1⟩ := by
          rw [tweenFrame_keep hdb ht]
          rfl
        rw [h1, h2]
        obtain ⟨p2, l2, h3⟩ := runFrames_one_pending ts hdb htf
          (lerp3 b.startPos b.targetPos (easedOf (min ((t - b.startTime) / b.duration) 1)))
          b.targetLookAt (e + 1)
        exact Or.inr ⟨p2, l2, h3⟩

/-- C1, counterexample.  `animateTo(A)` at t=0 (target (100,0,0), duration
2000 ms), a frame at t=1000, then `animateTo(B)` at t=1000 (target
(0,200,0)); frames at t=2000 and t=3000.  Both loops stay alive and each
emits `camera:animation-complete`: two events in total, not exactly one as
the claim states (the final pose does equal the target of B). -/
theorem camera_tween_two_completions :
    (runFrames [2000, 3000] (animateCameraTo (0, 200, 0) (0, 0, 0) 1000 2000
        (runFrames [1000] (animateCameraTo (100, 0, 0) (0, 0, 0) 0 2000
          ⟨(0, 0, 500), (0, 0, 0), [], 0⟩)))).completeEvents = 2 ∧
    (2 : Nat) ≠ 1 ∧
    (runFrames [2000, 3000] (animateCameraTo (0, 200, 0) (0, 0, 0) 1000 2000
        (runFrames [1000] (animateCameraTo (100, 0, 0) (0, 0, 0) 0 2000
          ⟨(0, 0, 500), (0, 0, 0), [], 0⟩)))).pos = (0, 200, 0) := by
  refine ⟨?_, by norm_num, ?_⟩ <;>
    norm_num [runFrames, runFrame, tweenFrame, animateCameraTo, lerp3, easedOf, min_def]

/-- C1, amended.  When `animateCameraTo(B)` is issued at `tB` while the tween
of A (started at `tA`, not yet finished: `tB < tA + dA`) is still running and
the deadline of A does not exceed that of B, then — for any frame schedule
whose frames before some frame `f ≥ tB + dB` all precede `tB + dB` — the run
emits exactly two `camera:animation-complete` events (one per call, not one
in total), and the final camera pose equals the target position and look-at
of B: the loop of B, registered later, writes after that of A within every
shared frame and finishes last.  The tween of B starts from the current
mid-tween camera pose
(see `animateCameraTo`), so no blending of destinations occurs. -/
theorem camera_tween_preemption_amended
    (p0 l0 : V3) (e0 : Nat) (posA laA posB laB : V3) (tA dA tB dB : ℚ)
    (fsPre fs1 fs2 : List ℚ) (f : ℚ)
    (hdA : 0 < dA) (hdB : 0 < dB)
    (hpre : ∀ x ∈ fsPre, x < tA + dA)
    (_hB : tB < tA + dA)
    (hend : tA + dA ≤ tB + dB)
    (hfs1 : ∀ x ∈ fs1, x < tB + dB)
    (hf : tB + dB ≤ f) :
    (runFrames fs2 (runFrame f (runFrames fs1 (animateCameraTo posB laB tB dB
        (runFrames fsPre (animateCameraTo posA laA tA dA
          ⟨p0, l0, [], e0⟩)))))).completeEvents = e0 + 2 ∧
    (runFrames fs2 (runFrame f (runFrames fs1 (animateCameraTo posB laB tB dB
        (runFrames fsPre (animateCameraTo posA laA tA dA
          ⟨p0, l0, [], e0⟩)))))).pos = posB ∧
    (runFrames fs2 (runFrame f (runFrames fs1 (animateCameraTo posB laB tB dB
        (runFrames fsPre (animateCameraTo posA laA tA dA
          ⟨p0, l0, [], e0⟩)))))).lookAt = laB := by
  have hA0 : animateCameraTo posA laA tA dA (⟨p0, l0, [], e0⟩ : CamState) =
      ⟨p0, l0, [⟨p0, posA, laA, tA, dA⟩], e0⟩ := rfl
  set a : Tween := ⟨p0, posA, laA, tA, dA⟩ with ha
  have hfsPre : ∀ x ∈ fsPre, x < a.startTime + a.duration := by
    intro x hx
    simpa [ha] using hpre x hx
  obtain ⟨p1, l1, hPre⟩ :=
    runFrames_one_pending fsPre (b := a) (by simpa [ha] using hdA) hfsPre p0 l0 e0
  rw [hA0, hPre]
  have hBdef : animateCameraTo posB laB tB dB (⟨p1, l1, [a], e0⟩ : CamState) =
      ⟨p1, l1, [a, ⟨p1, posB, laB, tB, dB⟩], e0⟩ := rfl
  set b : Tween := ⟨p1, posB, laB, tB, dB⟩ with hb
  rw [hBdef]
  have hfsB : ∀ x ∈ fs1, x < b.startTime + b.duration := by
    intro x hx
    simpa [hb] using hfs1 x hx
  have hfb : b.startTime + b.duration ≤ f := by simpa [hb] using hf
  have hfa : a.startTime + a.duration ≤ f := by
    simp only [ha]
    linarith
  rcases runFrames_two_pending fs1 (a := a) (b := b) (by simpa [ha] using hdA)
      (by simpa [hb] using hdB) hfsB p1 l1 e0 with ⟨p2, l2, h2⟩ | ⟨p2, l2, h2⟩
  · rw [h2, runFrame_double,
      tweenFrame_done (by simpa [ha] using hdA) hfa,
      tweenFrame_done (by simpa [hb] using hdB) hfb]
    rw [runFrames_loops_nil rfl]
    exact ⟨rfl, rfl, rfl⟩
  · rw [h2, runFrame_single, tweenFrame_done (by simpa [hb] using hdB) hfb]
    rw [runFrames_loops_nil rfl]
    exact ⟨rfl, rfl, rfl⟩

/-- Witness for the amended C1 at the concrete schedule of the counterexample. -/
theorem camera_tween_preemption_amended_witness :
    (runFrames [] (runFrame 3000 (runFrames [2000] (animateCameraTo (0, 200, 0) (0, 0, 0) 1000 2000
        (runFrames [500] (animateCameraTo (100, 0, 0) (0, 0, 0) 0 2000
          ⟨(0, 0, 500), (0, 0, 0), [], 0⟩)))))).completeEvents = 0 + 2 ∧
    (runFrames [] (runFrame 3000 (runFrames [2000] (animateCameraTo (0, 200, 0) (0, 0, 0) 1000 2000
        (runFrames [500] (animateCameraTo (100, 0, 0) (0, 0, 0) 0 2000
          ⟨(0, 0, 500), (0, 0, 0), [], 0⟩)))))).pos = (0, 200, 0) ∧
    (runFrames [] (runFrame 3000 (runFrames [2000] (animateCameraTo (0, 200, 0) (0, 0, 0) 1000 2000
        (runFrames [500] (animateCameraTo (100, 0, 0) (0, 0, 0) 0 2000
          ⟨(0, 0, 500), (0, 0, 0), [], 0⟩)))))).lookAt = (0, 0, 0) := by
  exact camera_tween_preemption_amended (0, 0, 500) (0, 0, 0) 0 (100, 0, 0) (0, 0, 0)
    (0, 200, 0) (0, 0, 0) 0 2000 1000 2000 [500] [2000] [] 3000
    (by norm_num) (by norm_num)
    (by intro x hx; simp at hx; subst hx; norm_num)
    (by norm_num) (by norm_num)
    (by intro x hx; simp at hx; subst hx; norm_num)
    (by norm_num)

end GithubGlobe
